import Mathlib

/-!
Verification of the Audio Waveform Video Overlay Generator (`src/main.py`)
against its natural-language specification.

The development shallowly embeds the pure computational core of the script:
the chunked WAV read loop, the channel downmix, the time-axis and
vertical-bound computation of the renderer, the frame file naming,
and the control flow of `convert` / `__main__` (workspace lifecycle,
exit codes), with fallible effects made explicit.  Sample values and all
numpy arithmetic are embedded as exact rationals; the float literal `1.1`
is the rational `11/10`.
-/

set_option autoImplicit false

namespace AWVG

/-! ## Definitions

### Chunked read loop (`AudioWaveformConverter.convert`, lines 98-117)

`chunk_size = sample_rate // fps` and the `while True` loop calls
`wav.readframes(chunk_size)`, which returns `min chunk_size remaining`
sample frames (empty once either is zero), breaks on an empty result,
and otherwise renders one video frame from the block just read. -/

/-- Number of sample frames `wave.readframes n` returns when `remaining`
sample frames are left in the stream: the whole block, or the shorter
final remainder, or zero (empty bytes) at end of stream or for `n = 0`. -/
def readframes (n remaining : Nat) : Nat := min n remaining

/-- Integer chunk size `sample_rate // self.config["fps"]` (line 98). -/
def chunk_size (sample_rate fps : Nat) : Nat := sample_rate / fps

/-- Lengths (in sample frames) of the successive blocks the `while True`
loop of `convert` reads and renders, one rendered video frame per block:
read `readframes chunk remaining`, stop when the result is empty,
otherwise emit the block and continue on what is left. -/
def readLoopChunks (chunk remaining : Nat) : List Nat :=
  if h : readframes chunk remaining = 0 then []
  else readframes chunk remaining ::
    readLoopChunks chunk (remaining - readframes chunk remaining)
termination_by remaining
decreasing_by
  simp only [readframes] at h ⊢
  omega

/-- Value of `frame_count` after the loop: one frame per non-empty block. -/
def frame_count (chunk remaining : Nat) : Nat :=
  (readLoopChunks chunk remaining).length

/-! ### Channel downmix (`convert`, lines 107-112)

`data = np.frombuffer(raw_data, dtype=np.int16)` yields the interleaved
samples; when `num_channels > 1` the code does
`data.reshape(-1, num_channels).mean(axis=1)`.  Row `t` of the reshape is
`data[t*channels], …, data[t*channels + channels - 1]` and `mean(axis=1)`
divides each row sum by the channel count. -/

/-- Downmix step of `convert`: identity for one channel, otherwise the
per-time-index arithmetic mean of the interleaved channels given by
`reshape(-1, num_channels).mean(axis=1)`. -/
def downmix (channels : Nat) (data : List ℚ) : List ℚ :=
  if 1 < channels then
    (List.range (data.length / channels)).map (fun t =>
      (((List.range channels).map (fun c => data.getD (t * channels + c) 0)).sum)
        / (channels : ℚ))
  else data

/-! ### Renderer computations (`_render_frame`, lines 60-84)

The renderer computes `duration = len(data) / sample_rate` and
`time = np.linspace(0, duration, len(data))`, then sets the vertical axis
bounds to `(np.min(data)*1.1, np.max(data)*1.1)`. -/

/-- Embedding of `np.linspace(start, stop, num)` with numpy's default
endpoint-inclusive behavior: `num` evenly spaced values starting at `start`
with step `(stop - start)/(num - 1)`, the last one equal to `stop`;
a single value `[start]` for `num = 1` and the empty list for `num = 0`. -/
def linspace (start stop : ℚ) (num : Nat) : List ℚ :=
  if num = 0 then []
  else if num = 1 then [start]
  else (List.range num).map
    (fun i : Nat => start + (stop - start) * (i : ℚ) / ((num : ℚ) - 1))

/-- Frame duration `len(data) / sample_rate` computed on line 65. -/
def duration (data : List ℚ) (sample_rate : ℚ) : ℚ := data.length / sample_rate

/-- Time axis `np.linspace(0, duration, len(data))` computed on line 66. -/
def timeAxis (data : List ℚ) (sample_rate : ℚ) : List ℚ :=
  linspace 0 (duration data sample_rate) data.length

/-- Minimum a la `np.min`: reduce the list with `min` (the empty case,
on which numpy raises, defaults to `0`; the loop only renders non-empty
blocks). -/
def npMin : List ℚ → ℚ
  | [] => 0
  | a :: l => l.foldl min a

/-- Maximum a la `np.max`, as for `npMin`. -/
def npMax : List ℚ → ℚ
  | [] => 0
  | a :: l => l.foldl max a

/-- Vertical axis bounds `(np.min(data)*1.1, np.max(data)*1.1)` passed to
`set_ylim` on line 77. -/
def ylim (data : List ℚ) : ℚ × ℚ :=
  (npMin data * (11 / 10), npMax data * (11 / 10))

/-! ### Frame naming (`_render_frame` line 80, `_encode_video` line 133) -/

/-- Python's format specifier `{n:05d}` for a natural number: the decimal
digits, left-padded with zeros to a minimum width of five (wider numbers
keep all their digits). -/
def format05 (n : Nat) : String :=
  String.mk (List.replicate (5 - (Nat.repr n).length) '0') ++ Nat.repr n

/-- Frame file name `f"frame_{frame_idx:05d}.png"` written on line 80. -/
def framePath (i : Nat) : String := "frame_" ++ format05 i ++ ".png"

/-- Frame file name the external encoder reads for index `i` through the
`frame_%05d.png` sequence pattern it is invoked with on line 133: C printf
`%05d` zero-pads the decimal digits to a minimum width of five. -/
def encoderFramePath (i : Nat) : String :=
  "frame_" ++ (String.mk (List.replicate (5 - (Nat.repr i).length) '0')
    ++ Nat.repr i) ++ ".png"

/-- Matching one file name against the pattern of `temp_dir.glob("*.png")`
(line 124): the name ends in `.png`. -/
def matchesPngGlob (p : String) : Bool := ".png".toList.isSuffixOf p.toList

/-! ### Conversion job control flow

`convert` (lines 86-126) makes the workspace directory, then inside
`try` runs the read/render loop and the encoder, and in `finally` removes
every `*.png` file and the directory.  `__main__` (lines 173-193) checks
the input path, constructs the converter (whose `__init__` validates the
encoder executable and exits with code 1 if it is missing), and runs
`convert`.  Failures are injected explicitly: `failAt = some j` makes the
read or render step raise at loop iteration `j`, and `encodeOk = false`
makes the external encoder exit non-zero (`sys.exit(1)` on line 149).
An uncaught exception terminates the Python process with exit code 1. -/

/-- Failure that can escape the `try` block of `convert`. -/
inductive ConvErr
  | readError (idx : Nat)
  | encodeError
deriving DecidableEq, Repr

/-- State of the workspace directory on disk. -/
structure FS where
  dirExists : Bool
  files : List String
deriving DecidableEq, Repr

/-- Observable events of one program run, in program order. -/
inductive Ev
  | validateFFmpeg
  | mkdirWorkspace
  | renderFrame (path : String)
  | runEncoder
deriving DecidableEq, Repr

/-- Read/render loop of `convert` (lines 101-117) with an injected failure
point: starting at frame index `idx`, each chunk writes one frame file
`framePath idx` and advances the index by one; a failure at index `j`
aborts the loop, leaving the files already written.  Returns the final
`frame_count` (or the error) and the list of frame files written, in
order. -/
def renderLoop (chunks : List Nat) (failAt : Option Nat) (idx : Nat) :
    Except ConvErr Nat × List String :=
  match chunks with
  | [] => (Except.ok idx, [])
  | _ :: rest =>
    if failAt = some idx then (Except.error (ConvErr.readError idx), [])
    else
      let r := renderLoop rest failAt (idx + 1)
      (r.1, framePath idx :: r.2)

/-- The `finally` clause of `convert` (lines 122-126): unlink every file of
the workspace matching `*.png`, then `rmdir` the directory (in this model
the workspace holds only the loop's frame files, so the directory is empty
by then and the removal succeeds). -/
def cleanup (fs : FS) : FS :=
  { dirExists := false, files := fs.files.filter (fun p => !matchesPngGlob p) }

/-- Control flow of `convert`: create the workspace, run the loop, then the
encoder; whichever way the `try` block exits — normal completion, a read or
render failure, or the `sys.exit(1)` raised on encoder failure — the
`finally` cleanup runs on the workspace before the outcome propagates. -/
def convert (chunks : List Nat) (failAt : Option Nat) (encodeOk : Bool) :
    Except ConvErr Unit × FS :=
  let fs1 : FS := { dirExists := true, files := (renderLoop chunks failAt 0).2 }
  match (renderLoop chunks failAt 0).1 with
  | Except.error e => (Except.error e, cleanup fs1)
  | Except.ok _ =>
    if encodeOk then (Except.ok (), cleanup fs1)
    else (Except.error ConvErr.encodeError, cleanup fs1)

/-- Outcome of one whole program run. -/
structure MainResult where
  exitCode : Nat
  events : List Ev
deriving DecidableEq, Repr

/-- Control flow of `__main__`: exit 1 if the input path does not exist
(line 189, before any converter work); otherwise construct the converter,
whose `__init__` validates the encoder and exits 1 when it is missing
(line 42), before `convert` creates the workspace and renders; finally the
process exits 0 on success and 1 when an error escaped `convert`. -/
def mainRun (inputExists ffmpegOk : Bool) (chunks : List Nat)
    (failAt : Option Nat) (encodeOk : Bool) : MainResult :=
  if !inputExists then { exitCode := 1, events := [] }
  else if !ffmpegOk then { exitCode := 1, events := [Ev.validateFFmpeg] }
  else
    let renderEvs := (renderLoop chunks failAt 0).2.map Ev.renderFrame
    let encodeEvs : List Ev :=
      match (renderLoop chunks failAt 0).1 with
      | Except.ok _ => [Ev.runEncoder]
      | Except.error _ => []
    let code : Nat :=
      match (convert chunks failAt encodeOk).1 with
      | Except.ok _ => 0
      | Except.error _ => 1
    { exitCode := code,
      events := Ev.validateFFmpeg :: Ev.mkdirWorkspace :: (renderEvs ++ encodeEvs) }

/-- Whether the read/render loop of a run with failure injection `failAt`
completes without raising. -/
def renderSucceeds (chunks : List Nat) (failAt : Option Nat) : Bool :=
  match failAt with
  | none => true
  | some j => decide (chunks.length ≤ j)

/-! ## Helper lemmas -/

/-- Reading every position of a list back with `getD` recovers the list. -/
theorem map_getD_range (d : ℚ) : ∀ cs : List ℚ,
    (List.range cs.length).map (fun c => cs.getD c d) = cs := by
  intro cs
  induction cs with
  | nil => rfl
  | cons a cs ih =>
    rw [List.length_cons, List.range_succ_eq_map, List.map_cons, List.map_map]
    simp only [Function.comp_def, List.getD_cons_zero, List.getD_cons_succ]
    rw [ih]

/-- Indexing into `m` interleaved repetitions of a block `cs` at row `t`,
column `c` reads `cs` at `c`. -/
theorem getD_flatten_replicate (cs : List ℚ) (d : ℚ) :
    ∀ m t c, t < m → c < cs.length →
      (List.flatten (List.replicate m cs)).getD (t * cs.length + c) d = cs.getD c d := by
  intro m
  induction m with
  | zero => intro t c ht _; omega
  | succ m ih =>
    intro t c ht hc
    rw [List.replicate_succ, List.flatten_cons]
    cases t with
    | zero =>
      rw [Nat.zero_mul, Nat.zero_add]
      exact List.getD_append _ _ _ _ hc
    | succ t =>
      have hidx : (t + 1) * cs.length + c = cs.length + (t * cs.length + c) := by ring
      rw [hidx, List.getD_append_right _ _ _ _ (Nat.le_add_right _ _),
        Nat.add_sub_cancel_left]
      exact ih t c (by omega) hc

/-- Folding an idempotent operation over a list of copies of its seed
leaves the seed unchanged. -/
theorem foldl_idem_const (f : ℚ → ℚ → ℚ) (hf : ∀ x, f x x = x) (c : ℚ) :
    ∀ l : List ℚ, (∀ x ∈ l, x = c) → l.foldl f c = c := by
  intro l
  induction l with
  | nil => intro _; rfl
  | cons b l ih =>
    intro hmem
    rw [List.foldl_cons, hmem b (List.mem_cons_self b l), hf]
    exact ih (fun x hx => hmem x (List.mem_cons_of_mem b hx))

/-- Length of `m` interleaved repetitions of a block `cs`. -/
theorem length_flatten_replicate (m : Nat) (cs : List ℚ) :
    (List.flatten (List.replicate m cs)).length = m * cs.length := by
  induction m with
  | zero => simp
  | succ m ih =>
    rw [List.replicate_succ, List.flatten_cons, List.length_append, ih]
    ring

/-! ### Closed form of the read loop -/

/-- The read loop produces `total / chunk` full blocks followed by one
shorter block of the remainder when the division is not exact. -/
theorem readLoopChunks_eq (chunk : Nat) (hc : 0 < chunk) :
    ∀ n, readLoopChunks chunk n =
      List.replicate (n / chunk) chunk ++
        (if n % chunk = 0 then [] else [n % chunk]) := by
  intro n
  induction n using Nat.strong_induction_on with
  | _ n ih =>
    rw [readLoopChunks]
    rcases Nat.eq_zero_or_pos n with hn | hn
    · subst hn
      simp [readframes]
    · have hrf : readframes chunk n ≠ 0 := by
        simp only [readframes]; omega
      rw [dif_neg hrf]
      rcases le_or_lt chunk n with hle | hlt
      · have hmin : readframes chunk n = chunk := by
          simp only [readframes]; omega
        rw [hmin, ih (n - chunk) (by omega),
          Nat.div_eq_sub_div hc hle, Nat.mod_eq_sub_mod hle,
          List.replicate_succ, List.cons_append]
      · have hmin : readframes chunk n = n := by
          simp only [readframes]; omega
        have h0 : readLoopChunks chunk 0 = [] := by
          rw [readLoopChunks]; simp [readframes]
        rw [hmin, Nat.sub_self, h0, Nat.div_eq_of_lt hlt, Nat.mod_eq_of_lt hlt]
        simp [Nat.pos_iff_ne_zero.mp hn]

/-- Number of loop iterations is the ceiling of `total / chunk`. -/
theorem frame_count_eq_ceil (chunk n : Nat) (hc : 0 < chunk) :
    frame_count chunk n = n ⌈/⌉ chunk := by
  rw [frame_count, readLoopChunks_eq chunk hc n, Nat.ceilDiv_eq_add_pred_div]
  by_cases h : n % chunk = 0
  · rw [if_pos h, List.append_nil, List.length_replicate]
    obtain ⟨q, rfl⟩ : chunk ∣ n := Nat.dvd_of_mod_eq_zero h
    rw [Nat.mul_div_cancel_left q hc]
    have h1 : chunk * q + chunk - 1 = chunk * q + (chunk - 1) := by omega
    rw [h1, Nat.mul_add_div hc, Nat.div_eq_of_lt (by omega)]
    omega
  · rw [if_neg h, List.length_append, List.length_replicate, List.length_singleton]
    have hr0 : 0 < n % chunk := Nat.pos_of_ne_zero h
    have hr : n % chunk < chunk := Nat.mod_lt _ hc
    conv_rhs => rw [show n = chunk * (n / chunk) + n % chunk from
      (Nat.div_add_mod n chunk).symm]
    have h1 : chunk * (n / chunk) + n % chunk + chunk - 1
        = chunk * (n / chunk) + (n % chunk + chunk - 1) := by omega
    have h2 : (n % chunk + chunk - 1) / chunk = 1 :=
      Nat.div_eq_of_lt_le (by omega) (by omega)
    rw [h1, Nat.mul_add_div hc, h2]

/-! ### Frame naming and the render loop -/

/-- Every written frame file name matches the cleanup glob `*.png`. -/
theorem matchesPngGlob_framePath (i : Nat) : matchesPngGlob (framePath i) = true := by
  rw [matchesPngGlob, framePath]
  have h : ("frame_" ++ format05 i ++ ".png").toList
      = ("frame_" ++ format05 i).toList ++ ".png".toList := rfl
  rw [h, List.isSuffixOf_iff_suffix]
  exact List.suffix_append _ _

/-- Without injected failure the loop renders one frame per chunk with
consecutive indices starting at `idx`. -/
theorem renderLoop_none (chunks : List Nat) : ∀ idx,
    renderLoop chunks none idx
      = (Except.ok (idx + chunks.length),
          (List.range' idx chunks.length).map framePath) := by
  induction chunks with
  | nil => intro idx; simp [renderLoop]
  | cons c rest ih =>
    intro idx
    rw [renderLoop, if_neg (by simp)]
    rw [ih (idx + 1), List.length_cons, List.range'_succ, List.map_cons]
    have harith : idx + 1 + rest.length = idx + (rest.length + 1) := by omega
    rw [harith]

/-- A failure injected at index `j` within the run aborts the loop there,
leaving exactly the frames of the previous iterations on disk. -/
theorem renderLoop_fail (j : Nat) : ∀ (chunks : List Nat) (idx : Nat), idx ≤ j →
    j < idx + chunks.length →
    renderLoop chunks (some j) idx
      = (Except.error (ConvErr.readError j),
          (List.range' idx (j - idx)).map framePath) := by
  intro chunks
  induction chunks with
  | nil => intro idx h1 h2; simp at h2; omega
  | cons c rest ih =>
    intro idx h1 h2
    rw [renderLoop]
    by_cases hj : j = idx
    · subst hj
      rw [if_pos rfl, Nat.sub_self]
      rfl
    · rw [if_neg (by simp; omega)]
      rw [ih (idx + 1) (by omega) (by rw [List.length_cons] at h2; omega)]
      have hn : j - idx = (j - (idx + 1)) + 1 := by omega
      rw [hn, List.range'_succ, List.map_cons]

/-- A failure point at or beyond the end of the stream is never reached. -/
theorem renderLoop_fail_late (j : Nat) : ∀ (chunks : List Nat) (idx : Nat),
    idx + chunks.length ≤ j →
    renderLoop chunks (some j) idx
      = (Except.ok (idx + chunks.length),
          (List.range' idx chunks.length).map framePath) := by
  intro chunks
  induction chunks with
  | nil => intro idx h; simp [renderLoop]
  | cons c rest ih =>
    intro idx h
    rw [List.length_cons] at h
    rw [renderLoop, if_neg (by simp; omega), ih (idx + 1) (by omega)]
    rw [List.length_cons, List.range'_succ, List.map_cons]
    have harith : idx + 1 + rest.length = idx + (rest.length + 1) := by omega
    rw [harith]

/-- Whatever happens, every file the loop leaves behind is a frame file. -/
theorem renderLoop_files_are_frames : ∀ (chunks : List Nat) (failAt : Option Nat)
    (idx : Nat) (p : String),
    p ∈ (renderLoop chunks failAt idx).2 → ∃ i, p = framePath i := by
  intro chunks
  induction chunks with
  | nil => intro failAt idx p hp; simp [renderLoop] at hp
  | cons c rest ih =>
    intro failAt idx p hp
    rw [renderLoop] at hp
    by_cases hf : failAt = some idx
    · rw [if_pos hf] at hp
      simp at hp
    · rw [if_neg hf] at hp
      simp only [List.mem_cons] at hp
      rcases hp with hp | hp
      · exact ⟨idx, hp⟩
      · exact ih failAt (idx + 1) p hp

/-- The render-frame events of a run are never the validation event. -/
theorem validate_not_mem_renderEvs (l : List String) :
    Ev.validateFFmpeg ∉ l.map Ev.renderFrame := by
  intro hmem
  rw [List.mem_map] at hmem
  obtain ⟨p, _, hp⟩ := hmem
  exact Ev.noConfusion hp

/-! ## Claims

### Claim C1 -/

/-- C1: for every valid input (`total` sample frames, `0 < fps ≤ sample_rate`,
so `chunk_length = sample_rate / fps ≥ 1`) the conversion loop emits exactly
`⌈total / chunk_length⌉` frames, and when `total` is not an exact multiple of
`chunk_length` the final frame's amplitude series is the strictly shorter
remainder block of `total % chunk_length < chunk_length` samples. -/
theorem C1_frame_count_is_ceil (sample_rate fps total : Nat)
    (hfps : 0 < fps) (hle : fps ≤ sample_rate) :
    frame_count (chunk_size sample_rate fps) total
        = total ⌈/⌉ chunk_size sample_rate fps ∧
      (total % chunk_size sample_rate fps ≠ 0 →
        (readLoopChunks (chunk_size sample_rate fps) total).getLast?
            = some (total % chunk_size sample_rate fps) ∧
          total % chunk_size sample_rate fps < chunk_size sample_rate fps) := by
  have hc : 0 < chunk_size sample_rate fps := Nat.div_pos hle hfps
  refine ⟨frame_count_eq_ceil _ _ hc, fun hm => ⟨?_, Nat.mod_lt _ hc⟩⟩
  rw [readLoopChunks_eq _ hc total, if_neg hm]
  simp

/-- Witness for C1 at the spec's own example: a 1.01 s mono stream at
44100 Hz with fps 30 has chunk length 1470 and 31 frames, the last one
holding the 441 remaining samples. -/
theorem C1_frame_count_is_ceil_witness :
    (0 < 30 ∧ 30 ≤ 44100) ∧
      (frame_count (chunk_size 44100 30) 44541 = 44541 ⌈/⌉ chunk_size 44100 30 ∧
        (44541 % chunk_size 44100 30 ≠ 0 →
          (readLoopChunks (chunk_size 44100 30) 44541).getLast?
              = some (44541 % chunk_size 44100 30) ∧
            44541 % chunk_size 44100 30 < chunk_size 44100 30)) :=
  ⟨⟨by decide, by decide⟩,
    C1_frame_count_is_ceil 44100 30 44541 (by decide) (by decide)⟩

/-! ### Claim C10 -/

/-- C10: when `sample_rate / fps = 0` (fps larger than the sample rate,
violating the spec's `chunk_length ≥ 1` invariant) the loop still terminates
at once without error: the very first `readframes` call returns an empty
block, so the loop body never runs and zero frames are emitted. -/
theorem C10_zero_chunk_emits_no_frames (sample_rate fps total : Nat)
    (h : chunk_size sample_rate fps = 0) :
    readframes (chunk_size sample_rate fps) total = 0 ∧
      readLoopChunks (chunk_size sample_rate fps) total = [] ∧
      frame_count (chunk_size sample_rate fps) total = 0 := by
  rw [h]
  have h0 : readLoopChunks 0 total = [] := by
    rw [readLoopChunks]; simp [readframes]
  exact ⟨by simp [readframes], h0, by rw [frame_count, h0]; rfl⟩

/-- Witness for C10 with `sample_rate = 2`, `fps = 3`, 100 sample frames. -/
theorem C10_zero_chunk_emits_no_frames_witness :
    chunk_size 2 3 = 0 ∧
      (readframes (chunk_size 2 3) 100 = 0 ∧
        readLoopChunks (chunk_size 2 3) 100 = [] ∧
        frame_count (chunk_size 2 3) 100 = 0) :=
  ⟨by decide, C10_zero_chunk_emits_no_frames 2 3 100 (by decide)⟩

/-! ### Claim C5 -/

/-- C5: for one channel the downmix step is the identity on the chunk's
samples (the `if num_channels > 1` branch is not taken, so each output
sample is value-equal to the corresponding input sample). -/
theorem C5_downmix_mono_identity (data : List ℚ) : downmix 1 data = data := by
  rw [downmix, if_neg (by omega)]

/-! ### Claim C4 -/

/-- C4: for `channel_count = channels > 1` and an interleaved chunk of
`channels * m` raw samples, the downmix produces exactly `m` output samples
(one per time index, independent of the channel count), each output sample
is the arithmetic mean of the `channels` interleaved samples at its time
index, and when every channel holds a constant value (block `cs` repeated
`m` times) every output sample equals `cs.sum / channels` exactly. -/
theorem C4_downmix_is_channel_mean (channels m t : Nat) (data cs : List ℚ)
    (h : 1 < channels) (hlen : data.length = channels * m) (ht : t < m)
    (hcs : cs.length = channels) :
    (downmix channels data).length = m ∧
      (downmix channels data).getD t 0
        = (∑ c ∈ Finset.range channels, data.getD (t * channels + c) 0) / channels ∧
      downmix channels (List.flatten (List.replicate m cs))
        = List.replicate m (cs.sum / channels) := by
  refine ⟨?_, ?_, ?_⟩
  · rw [downmix, if_pos h, List.length_map, List.length_range, hlen,
      Nat.mul_div_cancel_left m (by omega)]
  · rw [downmix, if_pos h, hlen, Nat.mul_div_cancel_left m (by omega)]
    rw [List.getD_eq_getElem?_getD, List.getElem?_map, List.getElem?_range ht]
    rfl
  · rw [downmix, if_pos h, length_flatten_replicate, hcs, Nat.mul_div_left m (by omega)]
    refine List.eq_replicate_iff.mpr ⟨by rw [List.length_map, List.length_range], ?_⟩
    intro b hb
    rw [List.mem_map] at hb
    obtain ⟨u, humem, rfl⟩ := hb
    rw [List.mem_range] at humem
    congr 1
    have hmap : (List.range channels).map
        (fun c => (List.flatten (List.replicate m cs)).getD (u * channels + c) 0)
        = (List.range channels).map (fun c => cs.getD c 0) := by
      refine List.map_congr_left ?_
      intro c hcmem
      rw [List.mem_range] at hcmem
      rw [← hcs] at hcmem ⊢
      exact getD_flatten_replicate cs 0 m u c humem hcmem
    rw [hmap, ← hcs, map_getD_range]

/-- Witness for C4: two channels holding `[1,3,5,7]` (rows `[1,3]`, `[5,7]`)
and the constant block `cs = [2,4]`, at time index `t = 1` of `m = 2`. -/
theorem C4_downmix_is_channel_mean_witness :
    (1 < 2 ∧ ([1, 3, 5, 7] : List ℚ).length = 2 * 2 ∧ 1 < 2 ∧
        ([2, 4] : List ℚ).length = 2) ∧
      ((downmix 2 [1, 3, 5, 7]).length = 2 ∧
        (downmix 2 [1, 3, 5, 7]).getD 1 0
          = (∑ c ∈ Finset.range 2, ([1, 3, 5, 7] : List ℚ).getD (1 * 2 + c) 0) / 2 ∧
        downmix 2 (List.flatten (List.replicate 2 [2, 4]))
          = List.replicate 2 (([2, 4] : List ℚ).sum / 2)) :=
  ⟨⟨by decide, by decide, by decide, by decide⟩,
    C4_downmix_is_channel_mean 2 2 1 [1, 3, 5, 7] [2, 4]
      (by decide) (by decide) (by decide) (by decide)⟩

/-! ### Claim C6

The claim asserts every time-axis point is strictly below
`len(series)/sample_rate`.  It fails: `np.linspace` is endpoint inclusive
by default, so for any series of at least two samples the last axis point
equals the duration itself.  The axis spans the closed interval
`[0, duration]`. -/

/-- C6 counterexample: for the two-sample series `[0, 0]` at sample rate 1
the axis is `[0, 2]`, whose last point equals the duration `2` instead of
being strictly below it. -/
theorem C6_counterexample_endpoint_reached :
    ¬ (∀ t ∈ timeAxis [0, 0] 1, t < duration [0, 0] 1) := by
  intro hall
  have haxis : timeAxis [0, 0] 1 = [0, 2] := by
    rw [timeAxis, linspace]
    norm_num [duration, List.range_succ]
  have hmem : (2 : ℚ) ∈ timeAxis [0, 0] 1 := by
    rw [haxis]
    simp
  have hlt := hall 2 hmem
  rw [duration] at hlt
  norm_num at hlt

/-- C6 amended: the render step computes a time axis of exactly
`len(series)` evenly spaced points spanning the CLOSED interval
`[0, len(series)/sample_rate]`: the first point is `0`, consecutive points
differ by `duration/(len - 1)`, every point is at most the duration, and
for at least two samples the final point equals the duration exactly
(`np.linspace` includes its endpoint). -/
theorem C6_time_axis_closed_interval (data : List ℚ) (sr : ℚ) (hsr : 0 < sr) :
    (timeAxis data sr).length = data.length ∧
      (∀ t ∈ timeAxis data sr, 0 ≤ t ∧ t ≤ duration data sr) ∧
      (1 ≤ data.length → (timeAxis data sr).getD 0 0 = 0) ∧
      (2 ≤ data.length → (timeAxis data sr).getLast? = some (duration data sr)) ∧
      (∀ i, i + 1 < data.length →
        (timeAxis data sr).getD (i + 1) 0 - (timeAxis data sr).getD i 0
          = duration data sr / ((data.length : ℚ) - 1)) := by
  refine ⟨?_, ?_, ?_, ?_, ?_⟩
  · rw [timeAxis, linspace]
    by_cases h0 : data.length = 0
    · rw [if_pos h0, h0]
      rfl
    · rw [if_neg h0]
      by_cases h1 : data.length = 1
      · rw [if_pos h1, h1]
        rfl
      · rw [if_neg h1, List.length_map, List.length_range]
  · intro t ht
    have hdur : 0 ≤ duration data sr := by
      rw [duration]
      positivity
    rw [timeAxis, linspace] at ht
    by_cases h0 : data.length = 0
    · rw [if_pos h0] at ht
      exact absurd ht (List.not_mem_nil t)
    · rw [if_neg h0] at ht
      by_cases h1 : data.length = 1
      · rw [if_pos h1, List.mem_singleton] at ht
        subst ht
        exact ⟨le_refl 0, hdur⟩
      · rw [if_neg h1, List.mem_map] at ht
        obtain ⟨i, hi, rfl⟩ := ht
        rw [List.mem_range] at hi
        have hn2 : 2 ≤ data.length := by omega
        have hden : (0 : ℚ) < (data.length : ℚ) - 1 := by
          have h2 : (2 : ℚ) ≤ (data.length : ℚ) := by exact_mod_cast hn2
          linarith
        rw [zero_add]
        constructor
        · exact div_nonneg (mul_nonneg (by linarith) (Nat.cast_nonneg i))
            (le_of_lt hden)
        · rw [sub_zero]
          have hi' : (i : ℚ) ≤ (data.length : ℚ) - 1 := by
            have hle : (i : ℚ) + 1 ≤ (data.length : ℚ) := by exact_mod_cast hi
            linarith
          rw [div_le_iff₀ hden]
          exact mul_le_mul_of_nonneg_left hi' hdur
  · intro hlen1
    rw [timeAxis, linspace, if_neg (by omega)]
    by_cases h1 : data.length = 1
    · rw [if_pos h1]
      rfl
    · rw [if_neg h1,
        List.getD_eq_getElem?_getD, List.getElem?_map,
        List.getElem?_range (by omega : 0 < data.length)]
      norm_num
  · intro h2
    rw [timeAxis, linspace, if_neg (by omega), if_neg (by omega)]
    obtain ⟨m, hm⟩ : ∃ m, data.length = m + 1 := ⟨data.length - 1, by omega⟩
    rw [hm, List.range_succ, List.map_append, List.map_singleton,
      List.getLast?_concat]
    congr 1
    have hm0 : (m : ℚ) ≠ 0 := by
      have h1 : (1 : ℚ) ≤ (m : ℚ) := by exact_mod_cast (by omega : 1 ≤ m)
      intro hcon
      linarith
    push_cast
    rw [zero_add, sub_zero]
    have hsimp : (m : ℚ) + 1 - 1 = (m : ℚ) := by ring
    rw [hsimp, mul_div_assoc, div_self hm0, mul_one]
  · intro i hi
    rw [timeAxis, linspace, if_neg (by omega), if_neg (by omega)]
    rw [List.getD_eq_getElem?_getD, List.getD_eq_getElem?_getD,
      List.getElem?_map, List.getElem?_map,
      List.getElem?_range hi, List.getElem?_range (by omega : i < data.length)]
    simp only [Option.map_some', Option.getD_some]
    have hden : (data.length : ℚ) - 1 ≠ 0 := by
      have h2 : (2 : ℚ) ≤ (data.length : ℚ) :=
        by exact_mod_cast (by omega : 2 ≤ data.length)
      intro hcon
      linarith
    field_simp
    ring

/-- Witness for the amended C6 at the three-sample series `[0, 0, 0]`
with sample rate 1. -/
theorem C6_time_axis_closed_interval_witness :
    (0 : ℚ) < 1 ∧
      ((timeAxis [0, 0, 0] 1).length = ([0, 0, 0] : List ℚ).length ∧
        (∀ t ∈ timeAxis [0, 0, 0] 1, 0 ≤ t ∧ t ≤ duration [0, 0, 0] 1) ∧
        (1 ≤ ([0, 0, 0] : List ℚ).length → (timeAxis [0, 0, 0] 1).getD 0 0 = 0) ∧
        (2 ≤ ([0, 0, 0] : List ℚ).length →
          (timeAxis [0, 0, 0] 1).getLast? = some (duration [0, 0, 0] 1)) ∧
        (∀ i, i + 1 < ([0, 0, 0] : List ℚ).length →
          (timeAxis [0, 0, 0] 1).getD (i + 1) 0 - (timeAxis [0, 0, 0] 1).getD i 0
            = duration [0, 0, 0] 1 / ((([0, 0, 0] : List ℚ).length : ℚ) - 1))) :=
  ⟨by norm_num, C6_time_axis_closed_interval [0, 0, 0] 1 (by norm_num)⟩

/-! ### Claim C3

The claim asserts the renderer substitutes a minimal non-zero epsilon
vertical range when all samples of a chunk are equal.  It fails on the
source: line 77 passes `np.min(data)*1.1` and `np.max(data)*1.1` to
`set_ylim` unconditionally, and for an all-equal chunk those two bounds
coincide, a zero-span range (any expansion of such degenerate limits is
performed inside the external plotting library, not by this code). -/

/-- C3 counterexample: for the all-equal chunk `[5, 5]` the computed
vertical bounds are `(11/2, 11/2)`, whose span is not strictly positive. -/
theorem C3_counterexample_zero_span :
    ¬ (0 < (ylim [5, 5]).2 - (ylim [5, 5]).1) := by
  rw [ylim]
  norm_num [npMin, npMax]

/-- C3 amended: for every chunk in which all samples are equal the renderer
performs no epsilon substitution: both computed vertical bounds equal
`1.1` times the common sample value, so the requested vertical range has
exactly zero span. -/
theorem C3_all_equal_chunk_zero_span (data : List ℚ) (c : ℚ)
    (hne : data ≠ []) (hall : ∀ x ∈ data, x = c) :
    ylim data = (c * (11 / 10), c * (11 / 10)) ∧
      (ylim data).2 - (ylim data).1 = 0 := by
  obtain ⟨a, l, rfl⟩ := List.exists_cons_of_ne_nil hne
  have ha : a = c := hall a (List.mem_cons_self a l)
  have hmin : npMin (a :: l) = c := by
    rw [npMin, ha]
    exact foldl_idem_const min (fun x => min_self x) c l
      (fun x hx => hall x (List.mem_cons_of_mem a hx))
  have hmax : npMax (a :: l) = c := by
    rw [npMax, ha]
    exact foldl_idem_const max (fun x => max_self x) c l
      (fun x hx => hall x (List.mem_cons_of_mem a hx))
  rw [ylim, hmin, hmax]
  exact ⟨rfl, by ring⟩

/-- Witness for the amended C3 at the all-equal chunk `[5, 5]`. -/
theorem C3_all_equal_chunk_zero_span_witness :
    (([5, 5] : List ℚ) ≠ [] ∧ ∀ x ∈ ([5, 5] : List ℚ), x = 5) ∧
      (ylim [5, 5] = (5 * (11 / 10), 5 * (11 / 10)) ∧
        (ylim [5, 5]).2 - (ylim [5, 5]).1 = 0) :=
  ⟨⟨by decide, by decide⟩,
    C3_all_equal_chunk_zero_span [5, 5] 5 (by decide) (by decide)⟩

/-! ### Claim C7 -/

/-- C7: frame indices are 0-based, contiguous, and increase by one per
rendered chunk: after a full run the workspace holds exactly the frames of
indices `0 … len-1` in order, and after any `k` pipeline iterations
(observed by aborting the loop at index `k`) exactly those of `0 … k-1`;
every frame's on-disk name has exactly the form `frame_{index:05d}.png`,
the same zero-padded five-digit scheme the encoder's `frame_%05d.png`
sequence pattern expands to at every index. -/
theorem C7_frame_indexing_and_naming (chunks : List Nat) (k : Nat)
    (hk : k ≤ chunks.length) :
    (renderLoop chunks none 0).2 = (List.range chunks.length).map framePath ∧
      (renderLoop chunks (some k) 0).2 = (List.range k).map framePath ∧
      (∀ i, framePath i = "frame_" ++ format05 i ++ ".png") ∧
      (∀ i, framePath i = encoderFramePath i) := by
  refine ⟨?_, ?_, fun i => rfl, fun i => rfl⟩
  · rw [renderLoop_none chunks 0, List.range_eq_range']
  · rcases Nat.lt_or_ge k chunks.length with h | h
    · rw [renderLoop_fail k chunks 0 (by omega) (by omega), Nat.sub_zero,
        List.range_eq_range']
    · have hke : k = chunks.length := by omega
      rw [renderLoop_fail_late k chunks 0 (by omega), hke, List.range_eq_range']

/-- Witness for C7 with three chunks, interrupted after two iterations. -/
theorem C7_frame_indexing_and_naming_witness :
    2 ≤ ([4, 4, 4] : List Nat).length ∧
      ((renderLoop [4, 4, 4] none 0).2
          = (List.range ([4, 4, 4] : List Nat).length).map framePath ∧
        (renderLoop [4, 4, 4] (some 2) 0).2 = (List.range 2).map framePath ∧
        (∀ i, framePath i = "frame_" ++ format05 i ++ ".png") ∧
        (∀ i, framePath i = encoderFramePath i)) :=
  ⟨by decide, C7_frame_indexing_and_naming [4, 4, 4] 2 (by decide)⟩

/-! ### Claim C2 -/

/-- C2: on every exit path of the conversion job — normal completion, a
failure injected at any read/render iteration, or a failing external
encoder — the `finally` cleanup removes every frame file and the workspace
directory before the outcome propagates, so nothing persists. -/
theorem C2_workspace_removed_on_every_exit (chunks : List Nat)
    (failAt : Option Nat) (encodeOk : Bool) :
    (convert chunks failAt encodeOk).2.dirExists = false ∧
      (convert chunks failAt encodeOk).2.files = [] := by
  have hnil : (cleanup ⟨true, (renderLoop chunks failAt 0).2⟩).files = [] := by
    rw [cleanup]
    refine List.filter_eq_nil_iff.mpr ?_
    intro p hp
    obtain ⟨i, rfl⟩ := renderLoop_files_are_frames chunks failAt 0 p hp
    simp [matchesPngGlob_framePath i]
  rcases hr : (renderLoop chunks failAt 0).1 with e | n <;>
    cases encodeOk <;>
      simp only [convert, hr] <;>
        exact ⟨rfl, hnil⟩

/-! ### Claim C8 -/

/-- C8: the encoder executable is validated at most once per run, exactly
once whenever the input check passes, always as the very first event; and
when the validation fails the run exits with code 1 immediately — its whole
event trace is just the validation, so no workspace is created and no
frame is rendered. -/
theorem C8_validate_once_before_work (inputExists ffmpegOk : Bool)
    (chunks : List Nat) (failAt : Option Nat) (encodeOk : Bool) :
    (mainRun inputExists ffmpegOk chunks failAt encodeOk).events.count
        Ev.validateFFmpeg ≤ 1 ∧
      (inputExists = true →
        (mainRun inputExists ffmpegOk chunks failAt encodeOk).events.count
          Ev.validateFFmpeg = 1) ∧
      ((mainRun inputExists ffmpegOk chunks failAt encodeOk).events ≠ [] →
        (mainRun inputExists ffmpegOk chunks failAt encodeOk).events.head?
          = some Ev.validateFFmpeg) ∧
      (ffmpegOk = false → inputExists = true →
        (mainRun inputExists ffmpegOk chunks failAt encodeOk).exitCode = 1 ∧
          (mainRun inputExists ffmpegOk chunks failAt encodeOk).events
            = [Ev.validateFFmpeg]) := by
  cases inputExists with
  | false => simp [mainRun]
  | true =>
    cases ffmpegOk with
    | false => simp [mainRun]
    | true =>
      have hcount : (mainRun true true chunks failAt encodeOk).events.count
          Ev.validateFFmpeg = 1 := by
        rw [mainRun]
        simp only [Bool.not_true, Bool.false_eq_true, if_false, ite_false]
        rw [List.count_cons, List.count_cons, List.count_append]
        have h1 : ((renderLoop chunks failAt 0).2.map Ev.renderFrame).count
            Ev.validateFFmpeg = 0 :=
          List.count_eq_zero.mpr (validate_not_mem_renderEvs _)
        rcases hr : (renderLoop chunks failAt 0).1 with e | n <;>
          simp [hr, h1] at *
      refine ⟨le_of_eq hcount, fun _ => hcount, fun _ => ?_, by simp⟩
      rw [mainRun]
      simp

/-! ### Claim C9 -/

/-- C9: the process exit code is 1 whenever the input file is missing
(checked before the job starts: the event trace of such a run is empty),
the encoder executable is missing, the read/render loop raises, or the
external encoder fails, and 0 exactly when everything succeeds. -/
theorem C9_exit_codes (inputExists ffmpegOk encodeOk : Bool)
    (chunks : List Nat) (failAt : Option Nat) :
    (mainRun inputExists ffmpegOk chunks failAt encodeOk).exitCode
        = (if inputExists && ffmpegOk && renderSucceeds chunks failAt && encodeOk
            then 0 else 1) ∧
      (inputExists = false →
        (mainRun inputExists ffmpegOk chunks failAt encodeOk).events = []) := by
  cases inputExists with
  | false => simp [mainRun]
  | true =>
    cases ffmpegOk with
    | false => simp [mainRun]
    | true =>
      refine ⟨?_, by simp⟩
      rw [mainRun]
      simp only [Bool.not_true, Bool.false_eq_true, if_false, ite_false]
      rcases failAt with _ | j
      · rw [convert, renderLoop_none chunks 0]
        cases encodeOk <;> simp [renderSucceeds]
      · rcases Nat.lt_or_ge j chunks.length with hj | hj
        · rw [convert, renderLoop_fail j chunks 0 (by omega) (by omega)]
          have hrs : renderSucceeds chunks (some j) = false := by
            simp [renderSucceeds]; omega
          cases encodeOk <;> simp [hrs]
        · rw [convert, renderLoop_fail_late j chunks 0 (by omega)]
          have hrs : renderSucceeds chunks (some j) = true := by
            simp [renderSucceeds]; omega
          cases encodeOk <;> simp [hrs]

end AWVG
